import Mathlib

/-
Shallow embedding of the go-echoprint fingerprint matching core.

The embedding follows the Go source: `decode`/`NewFingerprint` (codec),
`Fingerprint.NewClamped` (window clamper), `Quality` (quality classifier),
`getCodeTimeMap`/`calculateConfidence` (match scorer),
`determineBestMatch`/`clampMatchConfidence`/`Match` (match engine) and
`MatchAll` (batch orchestrator).

Modelling conventions:
  * Go `uint32` values are `Nat`; arithmetic that can wrap applies an
    explicit `% 4294967296`.  Go `int` is modelled as the mathematical
    `Int` (the source targets 64-bit platforms, where 20-bit payload
    values never approach the `int` range).
  * Go `float32`/`float64` quantities are modelled as `Rat`; a float
    division whose divisor is zero yields a non-finite float (NaN here,
    since the numerator is zero whenever the divisor is), modelled as
    `none` in an `Option Rat`.
  * A Go runtime panic (index out of range) is a distinguished outcome
    (`DecodeOut.panic`, or `none` in an `Option` result type): it is not
    an error value that the caller can observe.
  * Go maps used by the scorer are modelled as association lists built
    in insertion order; the only map iteration in the source collects
    the multiset of histogram counts, which is order independent.
  * The external pieces (zlib/base64 `inflate`, the candidate store
    `db.query`) are parameters of the functions that call them.
-/

namespace Echoprint

/-! ## Constants (from the Go source) -/

def fpSixtySecOffset : Nat := 2586
def histogramMatchSlop : Nat := 2
def u32size : Nat := 4294967296
def u16size : Nat := 65536

def minDBScorePercent : Rat := 30
def bestMatchDiff : Rat := 1/4
def maxConfidence : Rat := 100

def minMatchConfidenceHighQuality : Rat := 70
def minMatchConfidenceMediumQuality : Rat := 55
def minMatchConfidenceLowQuality : Rat := 35

def searchDepthHighQuality : Nat := 200
def searchDepthMediumQuality : Nat := 350
def searchDepthLowQuality : Nat := 500

def mediumQualityThreshold : Rat := 256
def lowQualityThreshold : Rat := 128

/-! ## Data model -/

structure metadata where
  TrackID : Nat
  UPC : String
  ISRC : String
  Version : Rat
  Filename : String
  Bitrate : Rat
  Duration : Rat
deriving DecidableEq

/-- CodegenFp: a parsed json fingerprint generated by codegen. -/
structure CodegenFp where
  Meta : metadata
  Code : String
deriving DecidableEq

/-- Fingerprint: decoded codegen fingerprint split into Codes and Times. -/
structure Fingerprint where
  Codes : List Nat
  Times : List Nat
  Meta : metadata
  clamped : Bool
deriving DecidableEq

/-- dbResult: one candidate row returned by the external store. -/
structure dbResult where
  fp : Fingerprint
  ingestedAt : String
deriving DecidableEq

/-- MatchResult: response entry of the matching algorithm.  The source
keeps a back-reference to the candidate fingerprint (`fp`); confidence is
a float32, modelled as `Rat` (only finite values are ever stored, since
non-finite confidences fail the threshold comparison and are discarded). -/
structure MatchResult where
  fpref : Option Fingerprint
  Best : Bool
  TrackID : Nat
  Filename : String
  UPC : String
  ISRC : String
  Confidence : Rat
  IngestedAt : String
  Error : Option String
deriving DecidableEq

/-! ## Codec: `decode`

`decode` reads the inflated hex string as 5-hex-digit groups; the first
`tupleCount/2` groups are times, the following ones are codes, written
into an array of `tupleCount/2` elements (so an odd group count makes the
final write land one past the end of the array: a runtime panic). -/

/-- One hex digit, as accepted by `strconv.ParseUint(_, 16, 32)`. -/
def hexVal (c : Char) : Option Nat :=
  if '0' ≤ c ∧ c ≤ '9' then some (c.toNat - '0'.toNat)
  else if 'a' ≤ c ∧ c ≤ 'f' then some (c.toNat - 'a'.toNat + 10)
  else if 'A' ≤ c ∧ c ≤ 'F' then some (c.toNat - 'A'.toNat + 10)
  else none

/-- Parse exactly five hex digits (a 20-bit value, so the 32-bit range
check of `strconv.ParseUint` never fires). -/
def parseHex5 (l : List Char) : Option Nat :=
  match l with
  | [a, b, c, d, e] => do
      let va ← hexVal a
      let vb ← hexVal b
      let vc ← hexVal c
      let vd ← hexVal d
      let ve ← hexVal e
      pure ((((va * 16 + vb) * 16 + vc) * 16 + vd) * 16 + ve)
  | _ => none

/-- The i-th 5-character group of the inflated string (`fp[5i:5i+5]`). -/
def group (s : List Char) (i : Nat) : List Char :=
  (s.drop (5 * i)).take 5

/-- Parse groups `lo, lo+1, ..., lo+n-1` in order, stopping at the first
invalid group with the `strconv` error (message content abstracted). -/
def parseRange (s : List Char) (lo : Nat) : Nat → Except String (List Nat)
  | 0 => .ok []
  | n + 1 =>
    match parseHex5 (group s lo) with
    | none => .error "strconv.ParseUint: parsing invalid syntax"
    | some v =>
      match parseRange s (lo + 1) n with
      | .error e => .error e
      | .ok vs => .ok (v :: vs)

/-- Outcome of `decode`: a value, a returned error, or a runtime panic. -/
inductive DecodeOut where
  | ok (codes times : List Nat)
  | err (e : String)
  | panic
deriving DecidableEq

/-- decode (Go): `tupleCount = len(fp)/5`, `length = tupleCount/2`;
times are groups `0..length-1`, codes are groups `length..tupleCount-1`,
written to `codes[i-length]`.  When `tupleCount` is odd, the final
iteration parses its group and then writes `codes[length]`, one past the
end of the `length`-element array: an index-out-of-range panic (the parse
precedes the write, so an invalid final group still returns an error). -/
def decode (s : List Char) : DecodeOut :=
  -- tupleCount = s.length / 5, length = tupleCount / 2 (inlined below)
  match parseRange s 0 (s.length / 5 / 2) with
  | .error e => .err e
  | .ok times =>
    match parseRange s (s.length / 5 / 2) (s.length / 5 - s.length / 5 / 2) with
    | .error e => .err e
    | .ok codes =>
      if (s.length / 5) % 2 = 1 then .panic else .ok codes times

/-! ## Quality classifier -/

def qualityHigh : String := "high"
def qualityMedium : String := "medium"
def qualityLow : String := "low"

/-- Quality (Go): bitrate 0 means high (testing default); otherwise the
256/128 thresholds select high/medium/low. -/
def Fingerprint.Quality (fp : Fingerprint) : String :=
  if fp.Meta.Bitrate = 0 then qualityHigh
  else if fp.Meta.Bitrate ≥ mediumQualityThreshold then qualityHigh
  else if fp.Meta.Bitrate ≥ lowQualityThreshold then qualityMedium
  else qualityLow

/-! ## Window clamper: `NewClamped` -/

/-- Index of the first element strictly greater than `d` (the loop in
`NewClamped` breaks at the first such element). -/
def truncAt (d : Nat) : List Nat → Option Nat
  | [] => none
  | t :: ts => if t > d then some 0 else (truncAt d ts).map (· + 1)

/-- NewClamped (Go): start from a copy sharing Codes/Times/Meta with
`clamped = true`; `clampDuration = fpSixtySecOffset*3 + fp.Times[0]`
(uint32 addition); at the first time strictly above it, reslice both
arrays to the prefix before that index and stop.  Reading `fp.Times[0]`
of an empty fingerprint panics, as does `fp.Codes[:i]` when `Codes` is
shorter than the truncation index; `none` models those panics. -/
def Fingerprint.NewClamped (fp : Fingerprint) : Option Fingerprint :=
  match fp.Times with
  | [] => none
  | t0 :: _ =>
    -- clampDuration = fpSixtySecOffset*3 + fp.Times[0], a uint32 sum
    match truncAt ((fpSixtySecOffset * 3 + t0) % u32size) fp.Times with
    | none => some { fp with clamped := true }
    | some i =>
      if fp.Codes.length < i then none
      else some ⟨fp.Codes.take i, fp.Times.take i, fp.Meta, true⟩

/-! ## Match scorer: `getCodeTimeMap` and `calculateConfidence` -/

/-- Discretization used by the scorer: `time / slop * slop` in uint32
arithmetic (no wrap is possible in truncating division). -/
def discretize (slop t : Nat) : Nat := t / slop * slop

/-- `codeMap[code] = append(codeMap[code], time)` on an association list
kept in first-insertion order. -/
def mapAppend : List (Nat × List Nat) → Nat → Nat → List (Nat × List Nat)
  | [], c, t => [(c, [t])]
  | (c0, ts) :: rest, c, t =>
    if c0 = c then (c0, ts ++ [t]) :: rest else (c0, ts) :: mapAppend rest c t

/-- `matchTimes, ok := matchCodeMap[code]` on the association list. -/
def mapLookup : List (Nat × List Nat) → Nat → Option (List Nat)
  | [], _ => none
  | (c0, ts) :: rest, c => if c0 = c then some ts else mapLookup rest c

/-- getCodeTimeMap (Go): index the first `min limit (len Codes)` pairs of
the candidate, mapping each code to its discretized times in index order.
(`zip` reproduces the paired indexing of the source, which is exact under
the `len Codes = len Times` invariant of every produced fingerprint.) -/
def getCodeTimeMap (fp : Fingerprint) (limit slop : Nat) : List (Nat × List Nat) :=
  let lim := min limit fp.Codes.length
  ((fp.Codes.zip fp.Times).take lim).foldl
    (fun m ct => mapAppend m ct.1 (discretize slop ct.2)) []

/-- `dist := int(fpTime - matchTime); if dist < 0 { dist = -dist }` —
the subtraction is on uint32, so it wraps modulo 2^32 before the `int`
conversion; on 64-bit `int` the wrapped value is never negative, so the
negation branch (kept here for fidelity) is dead code. -/
def goDist (fpTime matchTime : Nat) : Int :=
  let d : Int := ((fpTime % u32size + u32size - matchTime % u32size) % u32size : Nat)
  if d < 0 then -d else d

/-- `timeDiffs[dist]++` with a `uint16` counter (wraps at 2^16). -/
def histBump : List (Int × Nat) → Int → List (Int × Nat)
  | [], d => [(d, 1 % u16size)]
  | (d0, n) :: rest, d =>
    if d0 = d then (d0, (n + 1) % u16size) :: rest else (d0, n) :: histBump rest d

/-- Read a bucket count (0 when absent). -/
def histCount (h : List (Int × Nat)) (d : Int) : Nat :=
  match h with
  | [] => 0
  | (d0, n) :: rest => if d0 = d then n else histCount rest d

/-- The histogram loop of `calculateConfidence`: for every query
`(code, time)` pair, discretize the query time and bump the bucket keyed
by `goDist` of it against every indexed candidate time of that code. -/
def buildTimeDiffs (fp : Fingerprint) (matchCodeMap : List (Nat × List Nat))
    (slop : Nat) : List (Int × Nat) :=
  (fp.Codes.zip fp.Times).foldl
    (fun h ct =>
      let fpTime := discretize slop ct.2
      match mapLookup matchCodeMap ct.1 with
      | some matchTimes => matchTimes.foldl (fun h2 mt => histBump h2 (goDist fpTime mt)) h
      | none => h)
    []

/-- Descending insertion sort on `Nat` (the source sorts the histogram
counts descending; only the two largest are consumed, so any sort with
the same multiset gives the same score). -/
def insertNatDesc (n : Nat) : List Nat → List Nat
  | [] => [n]
  | x :: xs => if n ≥ x then n :: x :: xs else x :: insertNatDesc n xs

def sortNatDesc (l : List Nat) : List Nat := l.foldr insertNatDesc []

/-- Go float32 division: returns a finite value unless the divisor is
zero; in this program the numerator is zero whenever the divisor is, so
the non-finite result is NaN, modelled as `none`. -/
def goF32Div (a b : Rat) : Option Rat :=
  if b = 0 then none else some (a / b)

/-- calculateConfidence (Go): score = sum of the two largest histogram
bucket counts; confidence = score / len(query.Codes) * 100 (float32,
`none` = NaN when the query has no codes). -/
def calculateConfidence (fp matchFp : Fingerprint) (slop : Nat) : Option Rat :=
  let matchCodeMap := getCodeTimeMap matchFp fp.Codes.length slop
  let timeDiffVals := sortNatDesc ((buildTimeDiffs fp matchCodeMap slop).map Prod.snd)
  let score : Nat :=
    match timeDiffVals with
    | [] => 0
    | [a] => a
    | a :: b :: _ => a + b
  (goF32Div (score : Rat) (fp.Codes.length : Rat)).map (· * 100)

/-! ## Match engine -/

def newMatchResult (r : dbResult) (confidence : Rat) : MatchResult :=
  { fpref := some r.fp
    Best := false
    TrackID := r.fp.Meta.TrackID
    Filename := r.fp.Meta.Filename
    UPC := r.fp.Meta.UPC
    ISRC := r.fp.Meta.ISRC
    Confidence := confidence
    IngestedAt := r.ingestedAt
    Error := none }

/-- A single error-carrying result standing in for a whole group. -/
def newMatchGroupError (e : String) : List MatchResult :=
  [{ fpref := none
     Best := false
     TrackID := 0
     Filename := ""
     UPC := ""
     ISRC := ""
     Confidence := 0
     IngestedAt := ""
     Error := some e }]

/-- Descending insertion sort by confidence (`byConfidence`; the Go sort
is unstable but deterministic — the claims are insensitive to tie
order). -/
def insertByConfidence (m : MatchResult) : List MatchResult → List MatchResult
  | [] => [m]
  | x :: xs => if m.Confidence ≥ x.Confidence then m :: x :: xs else x :: insertByConfidence m xs

def sortByConfidence (l : List MatchResult) : List MatchResult :=
  l.foldr insertByConfidence []

/-- determineBestMatch (Go): one result is flagged best; otherwise the
top is flagged iff `top - second >= top * bestMatchDiff`.  On an empty
list the else branch reads `matchList[0]`: a panic (`none`), unreachable
because the caller guards on `numMatches > 0`. -/
def determineBestMatch : List MatchResult → Option (List MatchResult)
  | [] => none
  | [m] => some [{ m with Best := true }]
  | m0 :: m1 :: rest =>
    if m0.Confidence - m1.Confidence ≥ m0.Confidence * bestMatchDiff
    then some ({ m0 with Best := true } :: m1 :: rest)
    else some (m0 :: m1 :: rest)

/-- clampMatchConfidence (Go): cap every confidence at 100. -/
def clampMatchConfidence (matchList : List MatchResult) : List MatchResult :=
  matchList.map (fun m => if m.Confidence > maxConfidence then { m with Confidence := maxConfidence } else m)

/-- The candidate store access `db.query(fp, offset, rows, minScore)`,
an external collaborator passed in as an oracle. -/
def DbQuery : Type := Fingerprint → Nat → Nat → Rat → Except String (List dbResult)

/-- Match (Go): clamp if needed, pick search depth and threshold from
the quality tier, query the store, score each candidate with slop 2,
keep those above threshold, then sort / flag best / cap at 100 when any
survive.  `none` models the panic of clamping an empty fingerprint. -/
def Match (db : DbQuery) (fp0 : Fingerprint) : Option (Except String (List MatchResult)) :=
  match (if fp0.clamped then some fp0 else fp0.NewClamped) with
  | none => none
  | some fp =>
    let numRows : Nat :=
      if fp.Quality = qualityHigh then searchDepthHighQuality
      else if fp.Quality = qualityMedium then searchDepthMediumQuality
      else searchDepthLowQuality
    let minMatchConfidence : Rat :=
      if fp.Quality = qualityHigh then minMatchConfidenceHighQuality
      else if fp.Quality = qualityMedium then minMatchConfidenceMediumQuality
      else minMatchConfidenceLowQuality
    match db fp 0 numRows minDBScorePercent with
    | .error e => some (.error e)
    | .ok results =>
      let matchList := results.filterMap (fun r =>
        match calculateConfidence fp r.fp histogramMatchSlop with
        | some c => if c ≥ minMatchConfidence then some (newMatchResult r c) else none
        | none => none)
      if matchList.length > 0 then
        match determineBestMatch (sortByConfidence matchList) with
        | none => none
        | some best => some (.ok (clampMatchConfidence best))
      else some (.ok matchList)

/-! ## Codec entry point and batch orchestrator -/

/-- The zlib/base64 `inflate` step (standard-library code outside this
repository), passed in as an oracle from strings to inflated strings. -/
def Inflate : Type := String → Except String String

/-- NewFingerprint (Go): inflate, then decode into Codes/Times; carries
the codegen metadata; fresh fingerprints are unclamped. -/
def NewFingerprint (inflate : Inflate) (cg : CodegenFp) : Option (Except String Fingerprint) :=
  match inflate cg.Code with
  | .error e => some (.error e)
  | .ok s =>
    match decode s.toList with
    | .panic => none
    | .err e => some (.error e)
    | .ok codes times => some (.ok ⟨codes, times, cg.Meta, false⟩)

/-- The body of one `MatchAll` goroutine: decode then match, converting
either failure into a single error-carrying result for this slot only.
`none` models a panic, which crashes the whole process in Go. -/
def processOne (inflate : Inflate) (db : DbQuery) (cg : CodegenFp) : Option (List MatchResult) :=
  match NewFingerprint inflate cg with
  | none => none
  | some (.error e) => some (newMatchGroupError e)
  | some (.ok fp) =>
    match Match db fp with
    | none => none
    | some (.error e) => some (newMatchGroupError e)
    | some (.ok matchList) => some matchList

/-- Collect the per-element outcomes into the pre-sized, index-addressed
output of `MatchAll`; any panicking goroutine crashes the process. -/
def collectSlots (f : CodegenFp → Option (List MatchResult)) :
    List CodegenFp → Option (List (List MatchResult))
  | [] => some []
  | cg :: rest =>
    match f cg, collectSlots f rest with
    | some v, some vs => some (v :: vs)
    | _, _ => none

/-- MatchAll (Go): one goroutine per input element, each writing only the
output slot of its own index; the batch result is index-aligned with the
input. -/
def MatchAll (inflate : Inflate) (db : DbQuery) (codegenList : List CodegenFp) :
    Option (List (List MatchResult)) :=
  collectSlots (processOne inflate db) codegenList

/-! ## Concrete fixtures (used to evaluate the development on inputs) -/

def metaZero : metadata := ⟨0, "", "", 0, "", 0, 0⟩

/-- Query with one code at discretized time 0. -/
def qWrap : Fingerprint := ⟨[7], [0], metaZero, true⟩

/-- Candidate sharing code 7 at discretized time 2 (later than the query). -/
def cWrap : Fingerprint := ⟨[7], [2], metaZero, true⟩

/-- A fingerprint with no codes at all. -/
def fpEmptyCodes : Fingerprint := ⟨[], [], metaZero, true⟩

/-- An unclamped empty fingerprint (as decoded from a tiny payload). -/
def fpEmptyUnclamped : Fingerprint := ⟨[], [], metaZero, false⟩

/-- Unclamped fingerprint whose last time (9000) exceeds 0 + 3*2586 = 7758. -/
def fpThree : Fingerprint := ⟨[1, 2, 3], [0, 5000, 9000], metaZero, false⟩

/-- An inflate oracle that fails on the payload "bad" and is otherwise the
identity (the zlib/base64 layer is outside this repository). -/
def wInflate : Inflate :=
  fun s => if s = "bad" then Except.error "zlib: invalid checksum" else Except.ok s

/-- A store oracle returning no candidates. -/
def wDb : DbQuery := fun _ _ _ _ => Except.ok []

def wCodegen (c : String) : CodegenFp := ⟨metaZero, c⟩

/-- A batch of three payloads whose middle element is corrupt. -/
def wBatch : List CodegenFp :=
  [wCodegen "00001aaaaa", wCodegen "bad", wCodegen "00002bbbbb"]

/-- The expected batch output: empty match lists around one error slot. -/
def wOut : List (List MatchResult) :=
  [[], newMatchGroupError "zlib: invalid checksum", []]

/-- Match results with confidences 90, 60 and 85 (none flagged best). -/
def mr90 : MatchResult := ⟨none, false, 1, "", "", "", 90, "", none⟩
def mr60 : MatchResult := ⟨none, false, 2, "", "", "", 60, "", none⟩
def mr85 : MatchResult := ⟨none, false, 3, "", "", "", 85, "", none⟩

/-! ## Helper lemmas: codec -/

theorem parseRange_ok_length (s : List Char) (lo n : Nat) (vs : List Nat)
    (h : parseRange s lo n = Except.ok vs) : vs.length = n := by
  induction n generalizing lo vs with
  | zero =>
    simp only [parseRange] at h
    cases h
    rfl
  | succ n ih =>
    simp only [parseRange] at h
    cases hp : parseHex5 (group s lo) with
    | none => rw [hp] at h; cases h
    | some v =>
      rw [hp] at h
      cases hr : parseRange s (lo + 1) n with
      | error e => rw [hr] at h; cases h
      | ok vs2 =>
        rw [hr] at h
        cases h
        simp [ih (lo + 1) vs2 hr]

theorem parseRange_ok_of_valid (s : List Char) (lo n : Nat)
    (h : ∀ i < n, (parseHex5 (group s (lo + i))).isSome) :
    ∃ vs, parseRange s lo n = Except.ok vs := by
  induction n generalizing lo with
  | zero => exact ⟨[], rfl⟩
  | succ n ih =>
    have h0 := h 0 (Nat.succ_pos n)
    cases hp : parseHex5 (group s (lo + 0)) with
    | none => rw [hp] at h0; cases h0
    | some v =>
      obtain ⟨vs, hr⟩ := ih (lo + 1) (fun i hi => by
        have := h (i + 1) (Nat.succ_lt_succ hi)
        rwa [show lo + (i + 1) = lo + 1 + i by omega] at this)
      refine ⟨v :: vs, ?_⟩
      simp only [parseRange]
      rw [show lo = lo + 0 by omega] at hp ⊢
      rw [hp]
      rw [show lo + 0 + 1 = lo + 1 by omega, hr]

theorem parseRange_valid_of_ok (s : List Char) (lo n : Nat) (vs : List Nat)
    (h : parseRange s lo n = Except.ok vs) :
    ∀ i < n, (parseHex5 (group s (lo + i))).isSome := by
  induction n generalizing lo vs with
  | zero => intro i hi; omega
  | succ n ih =>
    intro i hi
    simp only [parseRange] at h
    cases hp : parseHex5 (group s lo) with
    | none => rw [hp] at h; cases h
    | some v =>
      rw [hp] at h
      cases hr : parseRange s (lo + 1) n with
      | error e => rw [hr] at h; cases h
      | ok vs2 =>
        cases i with
        | zero => simpa using congrArg Option.isSome hp
        | succ i =>
          have := ih (lo + 1) vs2 hr i (by omega)
          rwa [show lo + 1 + i = lo + (i + 1) by omega] at this

theorem parseRange_err_of_invalid (s : List Char) (lo n : Nat)
    (h : ∃ i, i < n ∧ parseHex5 (group s (lo + i)) = none) :
    ∃ e, parseRange s lo n = Except.error e := by
  cases hr : parseRange s lo n with
  | error e => exact ⟨e, rfl⟩
  | ok vs =>
    obtain ⟨i, hi, hnone⟩ := h
    have := parseRange_valid_of_ok s lo n vs hr i hi
    rw [hnone] at this
    cases this

theorem parseRange_congr (s1 s2 : List Char) (lo n : Nat)
    (h : ∀ i < n, group s1 (lo + i) = group s2 (lo + i)) :
    parseRange s1 lo n = parseRange s2 lo n := by
  induction n generalizing lo with
  | zero => rfl
  | succ n ih =>
    have h0 : group s1 lo = group s2 lo := by
      have := h 0 (Nat.succ_pos n)
      simpa using this
    simp only [parseRange, h0]
    rw [ih (lo + 1) (fun i hi => by
      have := h (i + 1) (Nat.succ_lt_succ hi)
      rwa [show lo + (i + 1) = lo + 1 + i by omega] at this)]

theorem group_take (s : List Char) (tc i : Nat) (hi : i < tc) :
    group (s.take (5 * tc)) i = group s i := by
  simp only [group, List.drop_take]
  rw [List.take_take]
  congr 1
  omega

/-! ## Helper lemmas: window clamper -/

theorem truncAt_none_takeWhile (d : Nat) (l : List Nat) (h : truncAt d l = none) :
    l.takeWhile (fun t => decide (t ≤ d)) = l := by
  induction l with
  | nil => rfl
  | cons t ts ih =>
    simp only [truncAt] at h
    by_cases hc : t > d
    · simp [hc] at h
    · rw [if_neg hc] at h
      cases hr : truncAt d ts with
      | none => simp [List.takeWhile_cons, Nat.not_lt.mp hc, ih hr]
      | some j => rw [hr] at h; cases h

theorem truncAt_some_spec (d : Nat) (l : List Nat) (i : Nat) (h : truncAt d l = some i) :
    i ≤ l.length ∧ l.takeWhile (fun t => decide (t ≤ d)) = l.take i := by
  induction l generalizing i with
  | nil => cases h
  | cons t ts ih =>
    simp only [truncAt] at h
    by_cases hc : t > d
    · rw [if_pos hc] at h
      cases h
      refine ⟨Nat.zero_le _, ?_⟩
      simp [List.takeWhile_cons, Nat.not_le.mpr hc]
    · rw [if_neg hc] at h
      cases hr : truncAt d ts with
      | none => rw [hr] at h; cases h
      | some j =>
        rw [hr] at h
        have hi : i = j + 1 := by simpa using h.symm
        subst hi
        obtain ⟨hle, htw⟩ := ih j hr
        constructor
        · simpa using Nat.succ_le_succ hle
        · simp [List.takeWhile_cons, Nat.not_lt.mp hc, htw]

theorem truncAt_none_of_all_le (d : Nat) (l : List Nat) (h : ∀ x ∈ l, x ≤ d) :
    truncAt d l = none := by
  induction l with
  | nil => rfl
  | cons t ts ih =>
    simp only [truncAt]
    rw [if_neg (Nat.not_lt.mpr (h t (List.mem_cons_self t ts)))]
    rw [ih (fun x hx => h x (List.mem_cons_of_mem t hx))]
    rfl

/-- Characterization of `NewClamped` on a fingerprint respecting the
`len Codes = len Times` invariant: it keeps metadata, sets the clamped
flag, and truncates `Times` to the longest prefix within the (uint32)
window boundary, with `Codes` cut to the same length. -/
theorem NewClamped_spec (fp : Fingerprint) (t0 : Nat) (ts : List Nat)
    (ht : fp.Times = t0 :: ts) (hlen : fp.Codes.length = fp.Times.length) :
    fp.NewClamped = some
      ⟨fp.Codes.take (fp.Times.takeWhile
          (fun t => decide (t ≤ (fpSixtySecOffset * 3 + t0) % u32size))).length,
        fp.Times.takeWhile
          (fun t => decide (t ≤ (fpSixtySecOffset * 3 + t0) % u32size)),
        fp.Meta, true⟩ := by
  obtain ⟨C, T, M, cl⟩ := fp
  simp only at ht hlen ⊢
  subst ht
  simp only [Fingerprint.NewClamped]
  cases hr : truncAt ((fpSixtySecOffset * 3 + t0) % u32size) (t0 :: ts) with
  | none =>
    rw [truncAt_none_takeWhile _ _ hr]
    show some (⟨C, t0 :: ts, M, true⟩ : Fingerprint) = _
    rw [← hlen, List.take_length]
  | some i =>
    obtain ⟨hle, htw⟩ := truncAt_some_spec _ _ _ hr
    have hni : ¬ C.length < i := by
      rw [hlen]; omega
    show (if C.length < i then none
        else some (⟨C.take i, (t0 :: ts).take i, M, true⟩ : Fingerprint)) = _
    rw [if_neg hni, htw]
    have hl : ((t0 :: ts).take i).length = i := by
      rw [List.length_take]
      omega
    rw [hl]

/-! ## Claim theorems -/

/-- C1: the spec says every histogram increment is keyed by the absolute
difference of the discretized query and candidate times, also when the
candidate time is larger.  The code instead subtracts on `uint32`, which
wraps before the `int` conversion, so for the query (code 7, time 0)
against the candidate (code 7, time 2) with slop 2 the only incremented
bucket is keyed 2^32 - 2 = 4294967294, and the bucket keyed by the
absolute difference 2 stays empty: the code contradicts its own (dead)
`dist < 0` negation branch. -/
theorem calculateConfidence_bucket_key_wraps :
    buildTimeDiffs qWrap (getCodeTimeMap cWrap qWrap.Codes.length histogramMatchSlop)
        histogramMatchSlop = [((4294967294 : Int), 1)] ∧
    histCount (buildTimeDiffs qWrap (getCodeTimeMap cWrap qWrap.Codes.length histogramMatchSlop)
        histogramMatchSlop) 2 = 0 ∧
    goDist (discretize histogramMatchSlop 0) (discretize histogramMatchSlop 2) ≠ 2 := by
  refine ⟨by decide, by decide, by decide⟩

/-- C2: the claim says a query with zero codes yields confidence 0 behind
a division-by-zero guard.  The code has no guard: it computes the float32
division `0 / 0 = NaN` (modelled as `none`), not 0. -/
theorem calculateConfidence_empty_query_nan (fp matchFp : Fingerprint) (slop : Nat)
    (h : fp.Codes = []) :
    calculateConfidence fp matchFp slop = none ∧
    calculateConfidence fp matchFp slop ≠ some 0 := by
  have hnone : calculateConfidence fp matchFp slop = none := by
    simp [calculateConfidence, buildTimeDiffs, sortNatDesc, goF32Div, h]
  exact ⟨hnone, by rw [hnone]; intro hc; cases hc⟩

/-- Witness for C2 at a concrete empty-codes query. -/
theorem calculateConfidence_empty_query_nan_witness :
    fpEmptyCodes.Codes = [] ∧
    (calculateConfidence fpEmptyCodes cWrap histogramMatchSlop = none ∧
      calculateConfidence fpEmptyCodes cWrap histogramMatchSlop ≠ some 0) :=
  ⟨rfl, calculateConfidence_empty_query_nan fpEmptyCodes cWrap histogramMatchSlop rfl⟩

/-- C3 counterexample: an inflated hex string of length 12 (not a
multiple of 5) decodes without error; the two trailing characters are
silently discarded, contradicting the claim. -/
theorem decode_length_not_multiple_of_five_succeeds :
    decode ("00001aaaaaff".toList) = DecodeOut.ok [699050] [1] ∧
    ("00001aaaaaff".toList).length % 5 ≠ 0 := by
  refine ⟨by decide, by decide⟩

/-- C3 (amended): `decode` never checks the total length: it behaves
exactly as on the truncation of its input to the first ⌊len/5⌋ complete
5-digit groups — trailing characters are silently discarded — and it
fails with an error whenever any of those processed groups is not valid
hexadecimal. -/
theorem decode_amended (s : List Char) :
    decode s = decode (s.take (5 * (s.length / 5))) ∧
    ((∃ i, i < s.length / 5 ∧ parseHex5 (group s i) = none) →
      ∃ e, decode s = DecodeOut.err e) := by
  constructor
  · have hlen : (s.take (5 * (s.length / 5))).length = 5 * (s.length / 5) := by
      rw [List.length_take]
      exact Nat.min_eq_left (by omega)
    have htc : (s.take (5 * (s.length / 5))).length / 5 = s.length / 5 := by
      rw [hlen]
      omega
    have hcongr1 : parseRange s 0 (s.length / 5 / 2) =
        parseRange (s.take (5 * (s.length / 5))) 0 (s.length / 5 / 2) :=
      parseRange_congr _ _ _ _ (fun i hi => by
        simpa using (group_take s (s.length / 5) i (by omega)).symm)
    have hcongr2 : parseRange s (s.length / 5 / 2) (s.length / 5 - s.length / 5 / 2) =
        parseRange (s.take (5 * (s.length / 5))) (s.length / 5 / 2)
          (s.length / 5 - s.length / 5 / 2) :=
      parseRange_congr _ _ _ _ (fun i hi =>
        (group_take s (s.length / 5) (s.length / 5 / 2 + i) (by omega)).symm)
    unfold decode
    rw [htc, ← hcongr1, ← hcongr2]
  · rintro ⟨i, hi, hnone⟩
    cases h1 : parseRange s 0 (s.length / 5 / 2) with
    | error e => exact ⟨e, by unfold decode; rw [h1]⟩
    | ok vs1 =>
      have hvalid := parseRange_valid_of_ok s 0 _ vs1 h1
      have hge : s.length / 5 / 2 ≤ i := by
        by_contra hlt
        have hsome := hvalid i (by omega)
        rw [Nat.zero_add, hnone] at hsome
        cases hsome
      obtain ⟨e, h2⟩ := parseRange_err_of_invalid s (s.length / 5 / 2)
        (s.length / 5 - s.length / 5 / 2)
        ⟨i - s.length / 5 / 2, by omega, by
          rw [show s.length / 5 / 2 + (i - s.length / 5 / 2) = i by omega]
          exact hnone⟩
      exact ⟨e, by unfold decode; rw [h1, h2]⟩

/-- Witness for C3 (amended) at a concrete input with an invalid group. -/
theorem decode_amended_witness :
    (decode ("zzzzz00000".toList) =
      decode (("zzzzz00000".toList).take (5 * (("zzzzz00000".toList).length / 5)))) ∧
    (∃ e, decode ("zzzzz00000".toList) = DecodeOut.err e) :=
  ⟨(decode_amended ("zzzzz00000".toList)).1,
    (decode_amended ("zzzzz00000".toList)).2 ⟨0, by decide, by decide⟩⟩

/-- C9: when the inflated string holds an odd number of valid 5-digit
groups, the second loop of `decode` writes `codes[length]`, one past the
end of the `tupleCount/2`-element array: a panic, not an error. -/
theorem decode_odd_group_count_panics (s : List Char)
    (hodd : (s.length / 5) % 2 = 1)
    (hvalid : ∀ i < s.length / 5, (parseHex5 (group s i)).isSome) :
    decode s = DecodeOut.panic := by
  obtain ⟨vs1, h1⟩ := parseRange_ok_of_valid s 0 (s.length / 5 / 2)
    (fun i hi => by simpa using hvalid i (by omega))
  obtain ⟨vs2, h2⟩ := parseRange_ok_of_valid s (s.length / 5 / 2)
    (s.length / 5 - s.length / 5 / 2)
    (fun i hi => hvalid (s.length / 5 / 2 + i) (by omega))
  unfold decode
  rw [h1, h2]
  simp [hodd]

/-- Witness for C9: "000010000200003" holds three valid groups. -/
theorem decode_odd_group_count_panics_witness :
    ("000010000200003".toList.length / 5) % 2 = 1 ∧
    decode ("000010000200003".toList) = DecodeOut.panic :=
  ⟨by decide, decode_odd_group_count_panics ("000010000200003".toList)
    (by decide) (by decide)⟩

/-- C10 counterexample: a payload inflating to "00000" has fewer than 10
hex digits, yet `decode` does not succeed with zero pairs on it — it
parses the single group and panics writing `codes[0]` into an empty
array. -/
theorem decode_five_digits_panics :
    decode ("00000".toList) = DecodeOut.panic ∧
    decode ("00000".toList) ≠ DecodeOut.ok [] [] := by
  refine ⟨by decide, by decide⟩

/-- C10 (amended): payloads inflating to fewer than 5 hex digits decode
to zero pairs; clamping any fingerprint with empty `Times` reads
`fp.Times[0]` out of bounds (a panic), so `Match` on an unclamped empty
fingerprint panics as well instead of returning. -/
theorem match_empty_times_not_total :
    (∀ s : List Char, s.length < 5 → decode s = DecodeOut.ok [] []) ∧
    (∀ fp : Fingerprint, fp.Times = [] → fp.NewClamped = none) ∧
    (∀ (db : DbQuery) (fp : Fingerprint), fp.Times = [] → fp.clamped = false →
      Match db fp = none) := by
  refine ⟨?_, ?_, ?_⟩
  · intro s hs
    have h5 : s.length / 5 = 0 := Nat.div_eq_of_lt hs
    unfold decode
    rw [h5]
    rfl
  · intro fp ht
    unfold Fingerprint.NewClamped
    rw [ht]
  · intro db fp ht hcl
    have hclamp : fp.NewClamped = none := by
      unfold Fingerprint.NewClamped
      rw [ht]
    unfold Match
    rw [hcl, hclamp]
    rfl

/-- Witness for C10 (amended) at concrete inputs. -/
theorem match_empty_times_not_total_witness :
    decode ("0000".toList) = DecodeOut.ok [] [] ∧
    fpEmptyUnclamped.NewClamped = none ∧
    Match wDb fpEmptyUnclamped = none :=
  ⟨match_empty_times_not_total.1 ("0000".toList) (by decide),
    match_empty_times_not_total.2.1 fpEmptyUnclamped rfl,
    match_empty_times_not_total.2.2 wDb fpEmptyUnclamped rfl rfl⟩

/-- C5: best-match selection on a non-empty confidence-descending list:
a single result is always flagged best; with two or more, the top is
flagged iff `top - second ≥ top * 0.25`, and otherwise no result is
flagged. -/
theorem determineBestMatch_margin (ms out : List MatchResult)
    (hsorted : List.Chain' (fun a b => a.Confidence ≥ b.Confidence) ms)
    (hfresh : ∀ m ∈ ms, m.Best = false)
    (h : determineBestMatch ms = some out) :
    (∀ m, ms = [m] → out = [{ m with Best := true }]) ∧
    (∀ m0 m1 rest, ms = m0 :: m1 :: rest →
      ((m0.Confidence - m1.Confidence ≥ m0.Confidence * bestMatchDiff →
          out = { m0 with Best := true } :: m1 :: rest) ∧
       (¬ (m0.Confidence - m1.Confidence ≥ m0.Confidence * bestMatchDiff) →
          out = ms ∧ ∀ m ∈ out, m.Best = false))) := by
  constructor
  · intro m hm
    subst hm
    simp only [determineBestMatch] at h
    injection h with h2
    subst h2
    rfl
  · intro m0 m1 rest hm
    subst hm
    simp only [determineBestMatch] at h
    by_cases hc : m0.Confidence - m1.Confidence ≥ m0.Confidence * bestMatchDiff
    · rw [if_pos hc] at h
      injection h with h2
      subst h2
      exact ⟨fun _ => rfl, fun hnc => absurd hc hnc⟩
    · rw [if_neg hc] at h
      injection h with h2
      subst h2
      exact ⟨fun hcc => absurd hcc hc, fun _ => ⟨rfl, hfresh⟩⟩

/-- Witness for C5 on confidences [90, 60]: 90 - 60 = 30 ≥ 22.5, so the
top result is flagged best. -/
theorem determineBestMatch_margin_witness :
    List.Chain' (fun a b => a.Confidence ≥ b.Confidence) [mr90, mr60] ∧
    (∀ m ∈ [mr90, mr60], m.Best = false) ∧
    determineBestMatch [mr90, mr60] = some [{ mr90 with Best := true }, mr60] ∧
    ((∀ m, [mr90, mr60] = [m] → [{ mr90 with Best := true }, mr60] = [{ m with Best := true }]) ∧
     (∀ m0 m1 rest, [mr90, mr60] = m0 :: m1 :: rest →
       ((m0.Confidence - m1.Confidence ≥ m0.Confidence * bestMatchDiff →
           [{ mr90 with Best := true }, mr60] = { m0 with Best := true } :: m1 :: rest) ∧
        (¬ (m0.Confidence - m1.Confidence ≥ m0.Confidence * bestMatchDiff) →
           [{ mr90 with Best := true }, mr60] = [mr90, mr60] ∧
             ∀ m ∈ [{ mr90 with Best := true }, mr60], m.Best = false)))) :=
  ⟨by norm_num [List.chain'_cons, mr90, mr60],
    by decide,
    by
      simp only [determineBestMatch, mr90, mr60, bestMatchDiff]
      norm_num,
    determineBestMatch_margin [mr90, mr60] [{ mr90 with Best := true }, mr60]
      (by norm_num [List.chain'_cons, mr90, mr60]) (by decide)
      (by
        simp only [determineBestMatch, mr90, mr60, bestMatchDiff]
        norm_num)⟩

/-- C6: on a fingerprint with non-empty `Times` (respecting the length
invariant and with no uint32 overflow of the boundary sum), `NewClamped`
keeps metadata, sets `clamped`, and truncates `Codes`/`Times` to the
contiguous prefix of times not exceeding `Times[0] + 3 * 2586`; when no
time exceeds the boundary both sequences are unchanged. -/
theorem NewClamped_window (fp : Fingerprint) (t0 : Nat) (ts : List Nat)
    (ht : fp.Times = t0 :: ts)
    (hlen : fp.Codes.length = fp.Times.length)
    (hov : fpSixtySecOffset * 3 + t0 < u32size) :
    ∃ fp2, fp.NewClamped = some fp2 ∧
      fp2.clamped = true ∧ fp2.Meta = fp.Meta ∧
      fp2.Times = fp.Times.takeWhile (fun t => decide (t ≤ t0 + 3 * fpSixtySecOffset)) ∧
      fp2.Codes = fp.Codes.take
        (fp.Times.takeWhile (fun t => decide (t ≤ t0 + 3 * fpSixtySecOffset))).length ∧
      ((∀ t ∈ fp.Times, t ≤ t0 + 3 * fpSixtySecOffset) →
        fp2.Codes = fp.Codes ∧ fp2.Times = fp.Times) := by
  have hmod : (fpSixtySecOffset * 3 + t0) % u32size = t0 + 3 * fpSixtySecOffset := by
    rw [Nat.mod_eq_of_lt hov]
    ring
  have hspec := NewClamped_spec fp t0 ts ht hlen
  rw [hmod] at hspec
  refine ⟨_, hspec, rfl, rfl, rfl, rfl, ?_⟩
  intro hall
  have htw := truncAt_none_takeWhile _ _ (truncAt_none_of_all_le _ _ hall)
  constructor
  · show fp.Codes.take _ = fp.Codes
    rw [htw, ← hlen, List.take_length]
  · exact htw

/-- Witness for C6 on a fingerprint whose last time exceeds the window. -/
theorem NewClamped_window_witness :
    fpThree.Times = 0 :: [5000, 9000] ∧
    fpThree.Codes.length = fpThree.Times.length ∧
    fpSixtySecOffset * 3 + 0 < u32size ∧
    (∃ fp2, fpThree.NewClamped = some fp2 ∧
      fp2.clamped = true ∧ fp2.Meta = fpThree.Meta ∧
      fp2.Times = fpThree.Times.takeWhile (fun t => decide (t ≤ 0 + 3 * fpSixtySecOffset)) ∧
      fp2.Codes = fpThree.Codes.take
        (fpThree.Times.takeWhile (fun t => decide (t ≤ 0 + 3 * fpSixtySecOffset))).length ∧
      ((∀ t ∈ fpThree.Times, t ≤ 0 + 3 * fpSixtySecOffset) →
        fp2.Codes = fpThree.Codes ∧ fp2.Times = fpThree.Times)) :=
  ⟨rfl, by decide, by decide,
    NewClamped_window fpThree 0 [5000, 9000] rfl (by decide) (by decide)⟩

/-- C7: clamping is idempotent — applying `NewClamped` to the output of
`NewClamped` returns that output unchanged (same Codes, Times, Metadata
and flag). -/
theorem NewClamped_idempotent (fp fp2 : Fingerprint) (t0 : Nat) (ts : List Nat)
    (ht : fp.Times = t0 :: ts)
    (hlen : fp.Codes.length = fp.Times.length)
    (hov : fpSixtySecOffset * 3 + t0 < u32size)
    (h : fp.NewClamped = some fp2) :
    fp2.NewClamped = some fp2 := by
  have hspec := NewClamped_spec fp t0 ts ht hlen
  rw [hspec] at h
  injection h with h2
  subst h2
  have ht0B : t0 ≤ (fpSixtySecOffset * 3 + t0) % u32size := by
    rw [Nat.mod_eq_of_lt hov]
    omega
  have hw : fp.Times.takeWhile (fun t => decide (t ≤ (fpSixtySecOffset * 3 + t0) % u32size)) =
      t0 :: ts.takeWhile (fun t => decide (t ≤ (fpSixtySecOffset * 3 + t0) % u32size)) := by
    rw [ht]
    simp [List.takeWhile_cons, ht0B]
  have hwle : (fp.Times.takeWhile
      (fun t => decide (t ≤ (fpSixtySecOffset * 3 + t0) % u32size))).length ≤
      fp.Codes.length := by
    rw [hlen]
    exact (List.takeWhile_sublist _).length_le
  have hlen2 : (fp.Codes.take (fp.Times.takeWhile
        (fun t => decide (t ≤ (fpSixtySecOffset * 3 + t0) % u32size))).length).length =
      (fp.Times.takeWhile
        (fun t => decide (t ≤ (fpSixtySecOffset * 3 + t0) % u32size))).length := by
    rw [List.length_take]
    omega
  have hspec2 := NewClamped_spec
    ⟨fp.Codes.take (fp.Times.takeWhile
        (fun t => decide (t ≤ (fpSixtySecOffset * 3 + t0) % u32size))).length,
      fp.Times.takeWhile (fun t => decide (t ≤ (fpSixtySecOffset * 3 + t0) % u32size)),
      fp.Meta, true⟩
    t0 (ts.takeWhile (fun t => decide (t ≤ (fpSixtySecOffset * 3 + t0) % u32size)))
    hw hlen2
  rw [hspec2]
  simp [List.takeWhile_idem, List.take_take]

/-- Witness for C7: re-clamping the clamp of `fpThree` is a no-op. -/
theorem NewClamped_idempotent_witness :
    fpThree.NewClamped = some ⟨[1, 2], [0, 5000], metaZero, true⟩ ∧
    (Fingerprint.mk [1, 2] [0, 5000] metaZero true).NewClamped =
      some ⟨[1, 2], [0, 5000], metaZero, true⟩ :=
  ⟨by decide,
    NewClamped_idempotent fpThree ⟨[1, 2], [0, 5000], metaZero, true⟩ 0 [5000, 9000]
      rfl (by decide) (by decide) (by decide)⟩

/-- C8: every fingerprint the core produces has equally long `Codes` and
`Times`: successful decoding always returns equal-length arrays, and the
clamper preserves the equality. -/
theorem fingerprint_codes_times_same_length :
    (∀ (s : List Char) (codes times : List Nat),
        decode s = DecodeOut.ok codes times → codes.length = times.length) ∧
    (∀ fp fp2 : Fingerprint, fp.Codes.length = fp.Times.length →
        fp.NewClamped = some fp2 → fp2.Codes.length = fp2.Times.length) := by
  constructor
  · intro s codes times h
    unfold decode at h
    cases h1 : parseRange s 0 (s.length / 5 / 2) with
    | error e => rw [h1] at h; simp at h
    | ok vs1 =>
      rw [h1] at h
      cases h2 : parseRange s (s.length / 5 / 2) (s.length / 5 - s.length / 5 / 2) with
      | error e => rw [h2] at h; simp at h
      | ok vs2 =>
        rw [h2] at h
        by_cases hodd : (s.length / 5) % 2 = 1
        · simp [hodd] at h
        · simp [hodd] at h
          obtain ⟨hcodes, htimes⟩ := h
          subst hcodes
          subst htimes
          have l1 := parseRange_ok_length s 0 _ _ h1
          have l2 := parseRange_ok_length s _ _ _ h2
          omega
  · intro fp fp2 hlen h
    cases ht : fp.Times with
    | nil =>
      unfold Fingerprint.NewClamped at h
      rw [ht] at h
      simp at h
    | cons t0 ts =>
      have hspec := NewClamped_spec fp t0 ts ht hlen
      rw [hspec] at h
      injection h with h2
      subst h2
      simp only [List.length_take]
      have hle : (fp.Times.takeWhile
          (fun t => decide (t ≤ (fpSixtySecOffset * 3 + t0) % u32size))).length ≤
          fp.Times.length :=
        (List.takeWhile_sublist _).length_le
      omega

/-- Witness for C8 at a decoded payload and a clamped fingerprint. -/
theorem fingerprint_codes_times_same_length_witness :
    decode ("00001aaaaa".toList) = DecodeOut.ok [699050] [1] ∧
    ([699050] : List Nat).length = ([1] : List Nat).length ∧
    fpThree.Codes.length = fpThree.Times.length ∧
    fpThree.NewClamped = some ⟨[1, 2], [0, 5000], metaZero, true⟩ ∧
    (Fingerprint.mk [1, 2] [0, 5000] metaZero true).Codes.length =
      (Fingerprint.mk [1, 2] [0, 5000] metaZero true).Times.length :=
  ⟨by decide,
    fingerprint_codes_times_same_length.1 ("00001aaaaa".toList) [699050] [1] (by decide),
    by decide, by decide,
    fingerprint_codes_times_same_length.2 fpThree ⟨[1, 2], [0, 5000], metaZero, true⟩
      (by decide) (by decide)⟩

/-! ## Helper lemmas: batch orchestrator -/

theorem collectSlots_length (f : CodegenFp → Option (List MatchResult))
    (l : List CodegenFp) (out : List (List MatchResult))
    (h : collectSlots f l = some out) : out.length = l.length := by
  induction l generalizing out with
  | nil =>
    simp only [collectSlots, Option.some.injEq] at h
    subst h
    rfl
  | cons cg rest ih =>
    simp only [collectSlots] at h
    cases hf : f cg with
    | none => rw [hf] at h; simp at h
    | some v =>
      rw [hf] at h
      cases hr : collectSlots f rest with
      | none => rw [hr] at h; simp at h
      | some vs =>
        rw [hr] at h
        simp only [Option.some.injEq] at h
        subst h
        simp [ih vs hr]

theorem collectSlots_get (f : CodegenFp → Option (List MatchResult))
    (l : List CodegenFp) (out : List (List MatchResult))
    (h : collectSlots f l = some out) :
    ∀ i, ∀ hi : i < l.length, ∀ ho : i < out.length, f l[i] = some out[i] := by
  induction l generalizing out with
  | nil => intro i hi ho; simp at hi
  | cons cg rest ih =>
    intro i hi ho
    simp only [collectSlots] at h
    cases hf : f cg with
    | none => rw [hf] at h; simp at h
    | some v =>
      rw [hf] at h
      cases hr : collectSlots f rest with
      | none => rw [hr] at h; simp at h
      | some vs =>
        rw [hr] at h
        simp only [Option.some.injEq] at h
        subst h
        cases i with
        | zero => simpa using hf
        | succ i =>
          have hi2 : i < rest.length := by simpa using hi
          have ho2 : i < vs.length := by simpa using ho
          simpa using ih vs hr i hi2 ho2

/-- C4: `MatchAll` returns one output slot per input element, index
aligned: slot i is exactly the outcome of processing element i alone; a
decode failure or a match failure at position i fills that slot with a
single error-carrying result without touching any sibling slot. -/
theorem MatchAll_index_aligned (inflate : Inflate) (db : DbQuery)
    (l : List CodegenFp) (out : List (List MatchResult))
    (h : MatchAll inflate db l = some out) :
    out.length = l.length ∧
    (∀ i, ∀ hi : i < l.length, ∀ ho : i < out.length,
        processOne inflate db l[i] = some out[i]) ∧
    (∀ cg ms, processOne inflate db cg = some ms →
        MatchAll inflate db [cg] = some [ms]) ∧
    (∀ cg e, NewFingerprint inflate cg = some (Except.error e) →
        processOne inflate db cg = some (newMatchGroupError e) ∧
        (newMatchGroupError e).length = 1 ∧
        (∀ m ∈ newMatchGroupError e, m.Error = some e)) ∧
    (∀ cg fp e, NewFingerprint inflate cg = some (Except.ok fp) →
        Match db fp = some (Except.error e) →
        processOne inflate db cg = some (newMatchGroupError e)) := by
  refine ⟨collectSlots_length _ _ _ h, collectSlots_get _ _ _ h, ?_, ?_, ?_⟩
  · intro cg ms hp
    simp [MatchAll, collectSlots, hp]
  · intro cg e hfp
    refine ⟨by simp [processOne, hfp], rfl, ?_⟩
    intro m hm
    simp only [newMatchGroupError, List.mem_singleton] at hm
    subst hm
    rfl
  · intro cg fp e hfp hmatch
    simp [processOne, hfp, hmatch]

/-- Witness for C4: a three-element batch whose middle payload is
corrupt yields three index-aligned slots, the middle one a single error
result. -/
theorem MatchAll_index_aligned_witness :
    MatchAll wInflate wDb wBatch = some wOut ∧
    (wOut.length = wBatch.length ∧
     (∀ i, ∀ hi : i < wBatch.length, ∀ ho : i < wOut.length,
        processOne wInflate wDb wBatch[i] = some wOut[i]) ∧
     (∀ cg ms, processOne wInflate wDb cg = some ms →
        MatchAll wInflate wDb [cg] = some [ms]) ∧
     (∀ cg e, NewFingerprint wInflate cg = some (Except.error e) →
        processOne wInflate wDb cg = some (newMatchGroupError e) ∧
        (newMatchGroupError e).length = 1 ∧
        (∀ m ∈ newMatchGroupError e, m.Error = some e)) ∧
     (∀ cg fp e, NewFingerprint wInflate cg = some (Except.ok fp) →
        Match wDb fp = some (Except.error e) →
        processOne wInflate wDb cg = some (newMatchGroupError e))) :=
  ⟨by decide, MatchAll_index_aligned wInflate wDb wBatch wOut (by decide)⟩

end Echoprint
